import Mathlib

/-!
Verification development for the sividl device-layout library
(file `sividl/sividl_devices.py`).

The embedding models a device as a list of layer-tagged polygons.  A
polygon is kept abstract: it records the layer, the extent of its
vertices (xmin/xmax/ymin/ymax, which is what the geometry kernel uses
to compute bounding boxes) and its point set as a boolean membership
function on rational coordinates.  All geometry-kernel services
(bounding boxes, boolean difference) are modelled as exact point-set
operations, following the external-interface contract of the spec;
the code of this repository that calls them is translated directly
from `sividl_devices.py`.  Machine floats are modelled as exact
rationals.  Fallible Python code (assertions, IndexError, bounding-box
queries on empty cells) is modelled with `Except String`.
-/

/-- Polygon of a device: layer tag, vertex extent, and point set. -/
structure Pgon where
  layer : Nat
  xmin : ℚ
  xmax : ℚ
  ymin : ℚ
  ymax : ℚ
  mem : ℚ → ℚ → Bool

/-- Membership in an axis-aligned closed rectangle. -/
def rectMem (x0 x1 y0 y1 x y : ℚ) : Bool :=
  decide (x0 ≤ x) && decide (x ≤ x1) && decide (y0 ≤ y) && decide (y ≤ y1)

/-- Point set of a whole device: union of all of its polygons, on every
layer.  This is what the geometry kernel subtracts when a whole device is
passed as operand `B` of the boolean difference. -/
def devMem (d : List Pgon) (x y : ℚ) : Bool :=
  d.any fun p => p.mem x y

/-- Point set of the polygons of a device lying on one given layer. -/
def devMemLayer (d : List Pgon) (l : Nat) (x y : ℚ) : Bool :=
  d.any fun p => p.layer == l && p.mem x y

/-- Bounding-box coordinate `xmin` of a device, as the geometry kernel
computes it: minimum over all polygon vertex extents.  On a device with
no geometry the kernel bounding-box guard yields the degenerate box
((0,0),(0,0)), so the empty case returns 0. -/
def devXmin : List Pgon → ℚ
  | [] => 0
  | p :: ps => ps.foldl (fun m q => min m q.xmin) p.xmin

/-- Bounding-box coordinate `xmax` of a device. -/
def devXmax : List Pgon → ℚ
  | [] => 0
  | p :: ps => ps.foldl (fun m q => max m q.xmax) p.xmax

/-- Bounding-box coordinate `ymin` of a device. -/
def devYmin : List Pgon → ℚ
  | [] => 0
  | p :: ps => ps.foldl (fun m q => min m q.ymin) p.ymin

/-- Bounding-box coordinate `ymax` of a device. -/
def devYmax : List Pgon → ℚ
  | [] => 0
  | p :: ps => ps.foldl (fun m q => max m q.ymax) p.ymax

/-- Width `xsize` of the bounding box of a device. -/
def devXsize (d : List Pgon) : ℚ := devXmax d - devXmin d

/-- Height `ysize` of the bounding box of a device. -/
def devYsize (d : List Pgon) : ℚ := devYmax d - devYmin d

/-- Translation of `SividdleDevice.invert` (sividl_devices.py, lines
42-77).  It builds the bounding-box rectangle padded by
`padFrac * xsize` and `padFrac * ysize` and subtracts the device via
the geometry-kernel boolean `A-B`; the kernel difference is modelled as
the exact point-set difference, and the whole device (all of its
polygons, on every layer) is passed as operand `B`, exactly as the
source passes `B=self`.  There is no emptiness check anywhere: on a
device with no geometry the kernel bounding-box guard yields the
degenerate box ((0,0),(0,0)) and inversion silently proceeds with it
(never an EmptyGeometry error); the `Except` wrapper is kept for
uniformity with the fallible constructors and is always `ok` here. -/
def invert (d : List Pgon) (layer : Nat) (padFrac : ℚ) : Except String Pgon :=
  let xpad := padFrac * devXsize d
  let ypad := padFrac * devYsize d
  let x0 := devXmin d - xpad
  let x1 := devXmax d + xpad
  let y0 := devYmin d - ypad
  let y1 := devYmax d + ypad
  .ok { layer := layer
        xmin := x0, xmax := x1, ymin := y0, ymax := y1
        mem := fun x y => rectMem x0 x1 y0 y1 x y && !devMem d x y }

/-- Modelled from the spec: the variant of inversion described by the
spec sentence of section 4.2, "(padded rectangle) MINUS (union of the
original device polygons on the given layer)".  It differs from the
source translation `invert` only in restricting the subtrahend to the
polygons on the target layer.  It exists solely to be compared with
`invert`. -/
def invertOnGivenLayer (d : List Pgon) (layer : Nat) (padFrac : ℚ) : Except String Pgon :=
  let xpad := padFrac * devXsize d
  let ypad := padFrac * devYsize d
  let x0 := devXmin d - xpad
  let x1 := devXmax d + xpad
  let y0 := devYmin d - ypad
  let y1 := devYmax d + ypad
  .ok { layer := layer
        xmin := x0, xmax := x1, ymin := y0, ymax := y1
        mem := fun x y => rectMem x0 x1 y0 y1 x y && !devMemLayer d layer x y }

/-- Error message of the orientation assertion of `add_label`
(sividl_devices.py, lines 101-102). -/
def orientMsg : String :=
  "Orientation must be one of the following: r, l, t, b"

/-- Translation of `SividdleDevice.add_label` (sividl_devices.py, lines
79-130).  The text-rendering collaborator is opaque; the rendered text
device is represented by the extent `(tx, ty)` of its bounding box.  The
source first asserts the orientation indicator, then recenters the text
at the origin, shifts it along the chosen axis by half the sum of the
two extents plus `dist`, and inserts it into the host.  There is no
emptiness check: on a host with no geometry the kernel bounding-box
guard yields the degenerate box ((0,0),(0,0)) (sizes 0) and the label
is silently inserted. -/
def add_label (host : List Pgon) (orient : String) (textLayer : Nat)
    (tx ty : ℚ) (dist : ℚ) : Except String (List Pgon) :=
  if orient = "r" ∨ orient = "l" ∨ orient = "t" ∨ orient = "b" then
    let sx := devXsize host
    let sy := devYsize host
    let dx : ℚ :=
      if orient = "l" then -((tx + sx) * (1/2)) - dist
      else if orient = "r" then (tx + sx) * (1/2) + dist
      else 0
    let dy : ℚ :=
      if orient = "t" then (ty + sy) * (1/2) + dist
      else if orient = "b" then -((ty + sy) * (1/2)) - dist
      else 0
    let lx0 := -(tx * (1/2)) + dx
    let lx1 := tx * (1/2) + dx
    let ly0 := -(ty * (1/2)) + dy
    let ly1 := ty * (1/2) + dy
    .ok (host ++ [{ layer := textLayer
                    xmin := lx0, xmax := lx1, ymin := ly0, ymax := ly1
                    mem := fun x y => rectMem lx0 lx1 ly0 ly1 x y }])
  else
    .error orientMsg

/-- Ellipse emitted by `EllipseArray`: center x-coordinate (the center
is `(shift, 0)`) and the two radii `hx/2`, `hy/2`. -/
structure EllipseShape where
  cx : ℚ
  rx : ℚ
  ry : ℚ
  deriving DecidableEq

/-- Loop body of the ellipse generation: `shift += a`, then one ellipse
centered at `(shift, 0)` with radii `hx * 0.5` and `hy * 0.5`. -/
def ellipseStep (acc : ℚ × List EllipseShape) (t : ℚ × ℚ × ℚ) :
    ℚ × List EllipseShape :=
  let shift := acc.1 + t.2.2
  (shift, acc.2 ++ [⟨shift, t.1 * (1/2), t.2.1 * (1/2)⟩])

/-- CPython `is` between two independently computed int objects, as in
`len(a) is len(b)` or `len(a) is len(b) - 1`: both operands are fresh
int objects unless the value lies in the small-int cache [-5, 256],
so object identity holds exactly for equal values inside the cache;
for equal values above 256 the two objects are distinct and `is` is
False. -/
def pyIntIs (a b : ℤ) : Bool :=
  a == b && decide (-5 ≤ a) && decide (a ≤ 256)

/-- Translation of `EllipseArray.__init__` (sividl_devices.py, lines
685-709).  The two length assertions come first and compare with the
Python `is` operator (object identity, modelled by `pyIntIs`), not
`==`; the second comparison is over the integers, so `len(hx) - 1` is
`-1` for an empty first array.  A zero is prepended to the
lattice-constant array, and one ellipse per zipped `(hx, hy, a)` triple
is emitted at the accumulated shift. -/
def EllipseArray (hx_array hy_array a_consts_array : List ℚ) :
    Except String (List EllipseShape) :=
  if pyIntIs (hy_array.length : ℤ) (hx_array.length : ℤ) then
    if pyIntIs (a_consts_array.length : ℤ) ((hx_array.length : ℤ) - 1) then
      let aa := (0 : ℚ) :: a_consts_array
      let triples := hx_array.zip (hy_array.zip aa)
      .ok (triples.foldl ellipseStep (0, [])).2
    else
      .error "Please provide arrays of equal length"
  else
    .error "Please provide arrays of equal length"

/-- Value stored in a Python parameter dictionary. -/
inductive PyVal where
  | pyInt : ℤ → PyVal
  | pyBool : Bool → PyVal
  | pyRat : ℚ → PyVal
  | pyIntList : List ℤ → PyVal
  deriving DecidableEq

/-- Python dictionary of parameters, as a partial map from keys. -/
def PyDict := String → Option PyVal

/-- In-place dictionary assignment `d[k] = v`. -/
def dset (d : PyDict) (k : String) (v : PyVal) : PyDict :=
  fun q => if q = k then some v else d q

/-- Effect of `TaperedWaveGuide.__init__` (sividl_devices.py, lines
543-612) on the params dictionary it receives: the constructor reads
many keys and stores the dictionary on the instance, but never assigns
into it, so the effect on the caller dictionary is the identity. -/
def TaperedWaveGuide_params_effect : PyDict → PyDict := id

/-- Translation of `RetroReflector.__init__` (sividl_devices.py, lines
791-801) restricted to its effect on the caller params dictionary: it
overwrites three keys in place and then delegates to
`TaperedWaveGuide`. -/
def RetroReflector (params : PyDict) : PyDict :=
  TaperedWaveGuide_params_effect
    (dset (dset (dset params "which_anchors" (.pyIntList [1, 3]))
      "add_taper_marker" (.pyBool false))
      "len_tp_right" (.pyInt 0))

/-- Axis-aligned rectangle polygon on a given layer, with its point set. -/
def rectPgon (l : Nat) (x0 x1 y0 y1 : ℚ) : Pgon :=
  ⟨l, x0, x1, y0, y1, fun x y => rectMem x0 x1 y0 y1 x y⟩

/-- Membership of a point in the (unpadded) bounding box of a device. -/
def inBoundingBox (d : List Pgon) (x y : ℚ) : Prop :=
  devXmin d ≤ x ∧ x ≤ devXmax d ∧ devYmin d ≤ y ∧ y ≤ devYmax d

/-- Bounding-box y-centroid of a device. -/
def devYCentroid (d : List Pgon) : ℚ := (devYmin d + devYmax d) * (1/2)

/-- Bounding-box y-centroid of a single polygon. -/
def pgonYCentroid (p : Pgon) : ℚ := (p.ymin + p.ymax) * (1/2)

/-- Bounds-checked Python list indexing: out of range raises IndexError. -/
def listGet (l : List ℚ) (i : Nat) : Except String ℚ :=
  if h : i < l.length then .ok (l.get ⟨i, h⟩) else .error "IndexError"

/-- Bounds-checked read of a numpy array of shape (nx, ny). -/
def npGet (nx ny : Nat) (a : Nat × Nat → ℚ) (i j : Nat) : Except String ℚ :=
  if i < nx ∧ j < ny then .ok (a (i, j)) else .error "IndexError"

/-- Bounds-checked write to a numpy array of shape (nx, ny). -/
def npSet (nx ny : Nat) (a : Nat × Nat → ℚ) (i j : Nat) (v : ℚ) :
    Except String (Nat × Nat → ℚ) :=
  if i < nx ∧ j < ny then .ok (Function.update a (i, j) v) else .error "IndexError"

/-- Bounds-checked read of the (nx, ny, 2) device-dimensions array. -/
def npGetP (nx ny : Nat) (a : Nat × Nat → ℚ × ℚ) (i j : Nat) : Except String (ℚ × ℚ) :=
  if i < nx ∧ j < ny then .ok (a (i, j)) else .error "IndexError"

/-- Bounds-checked write to the (nx, ny, 2) device-dimensions array. -/
def npSetP (nx ny : Nat) (a : Nat × Nat → ℚ × ℚ) (i j : Nat) (v : ℚ × ℚ) :
    Except String (Nat × Nat → ℚ × ℚ) :=
  if i < nx ∧ j < ny then .ok (Function.update a (i, j) v) else .error "IndexError"

/-- Row-major cell iteration of the sweep: both loops of the source run
over `range(num_iter_x)` (`itertools.product(range(num_iter_x), repeat=2)`,
sividl_devices.py lines 884 and 896). -/
def sweepCells (nx : Nat) : List (Nat × Nat) :=
  (List.range nx).flatMap fun i => (List.range nx).map fun j => (i, j)

/-- Pass 1 (measurement) of `RectangularSweep.__init__` for one cell
(sividl_devices.py, lines 884-894): substitute the two axis values into
the params, instantiate the device through the factory (modelled by the
deterministic size function `dsize`), and record its x-size and y-size
in the dimensions array. -/
def measureCell (varsx varsy : List ℚ) (dsize : ℚ → ℚ → ℚ × ℚ) (nx ny : Nat)
    (dims : Nat × Nat → ℚ × ℚ) (ij : Nat × Nat) :
    Except String (Nat × Nat → ℚ × ℚ) := do
  let vx ← listGet varsx ij.1
  let vy ← listGet varsy ij.2
  npSetP nx ny dims ij.1 ij.2 (dsize vx vy)

/-- Mutable state of pass 2 of the sweep: the two padding arrays and the
list of placed cells `(i, j, x-offset, y-offset)` in placement order. -/
structure SweepState where
  padX : Nat × Nat → ℚ
  padY : Nat × Nat → ℚ
  placed : List (Nat × Nat × ℚ × ℚ)

/-- Pass 2 (placement) of `RectangularSweep.__init__` for one cell
(sividl_devices.py, lines 896-943): re-read the axis values,
re-instantiate the device, update the cumulative x padding of the cell
one to the right (guarded by `j < num_iter_x - 1`) and the cumulative y
padding of the cell one above (guarded by `i < num_iter_y - 1`), then
place the device moved by the current cell padding.  Grid labelling is
disabled (`grid_label = False`); every array access is bounds-checked
as numpy checks it. -/
def placeCell (dims : Nat × Nat → ℚ × ℚ) (eqg : Bool)
    (pitchx pitchy : ℚ) (varsx varsy : List ℚ) (nx ny : Nat)
    (st : SweepState) (ij : Nat × Nat) : Except String SweepState := do
  let i := ij.1
  let j := ij.2
  let _ ← listGet varsx i
  let _ ← listGet varsy j
  let padX1 ←
    if j < nx - 1 then do
      let cur ← npGetP nx ny dims i j
      let rgt ← npGetP nx ny dims i (j + 1)
      let base ← npGet nx ny st.padX i j
      npSet nx ny st.padX i (j + 1)
        (base + (cur.1 + rgt.1) * (1/2) * (if eqg then 1 else 0) + pitchx)
    else pure st.padX
  let padY1 ←
    if i < ny - 1 then do
      let cur ← npGetP nx ny dims i j
      let top ← npGetP nx ny dims (i + 1) j
      let base ← npGet nx ny st.padY i j
      npSet nx ny st.padY (i + 1) j
        (base + (cur.2 + top.2) * (1/2) * (if eqg then 1 else 0) + pitchy)
    else pure st.padY
  let px ← npGet nx ny padX1 i j
  let py ← npGet nx ny padY1 i j
  pure ⟨padX1, padY1, st.placed ++ [(i, j, px, py)]⟩

/-- Translation of `RectangularSweep.__init__` (sividl_devices.py, lines
855-946): measurement pass over all cells, then placement pass.  The
final recentering of the whole grid (line 946) is a rigid translation of
everything placed, so the recorded offsets are the pre-recentering
ones. -/
def RectangularSweep (varsx varsy : List ℚ) (dsize : ℚ → ℚ → ℚ × ℚ)
    (eqg : Bool) (pitchx pitchy : ℚ) : Except String SweepState := do
  let nx := varsx.length
  let ny := varsy.length
  let dims ← (sweepCells nx).foldlM (measureCell varsx varsy dsize nx ny)
    (fun _ => (0, 0))
  (sweepCells nx).foldlM (placeCell dims eqg pitchx pitchy varsx varsy nx ny)
    ⟨fun _ => 0, fun _ => 0, []⟩

/-- Size of the cell device at grid position (i, j): the device factory
is deterministic, so the device re-instantiated in pass 2 has exactly
the sizes recorded in the measurement pass. -/
def measuredSize (varsx varsy : List ℚ) (dsize : ℚ → ℚ → ℚ × ℚ)
    (i j : Nat) : ℚ × ℚ :=
  dsize (varsx.getD i 0) (varsy.getD j 0)

/-- Cumulative placement offset along one axis: zero for the first cell,
then each step advances by half the sum of the two neighbouring sizes
(when the grid is equidistant) plus the pitch. -/
def cumPad (s : Nat → ℚ) (eqg : Bool) (pitch : ℚ) : Nat → ℚ
  | 0 => 0
  | k + 1 => cumPad s eqg pitch k + (s k + s (k + 1)) * (1/2) * (if eqg then 1 else 0) + pitch

/-- Bounding boxes of two placed cells intersect with nonempty interior.
Each cell device has its own bounding box centered at the origin before
the move (the sweep device classes of the repository recenter
themselves), so a cell of size (w, h) placed at (cx, cy) covers
the closed box [cx - w/2, cx + w/2] x [cy - h/2, cy + h/2]. -/
def cellsOverlap (cx cy w h cx2 cy2 w2 h2 : ℚ) : Prop :=
  max (cx - w * (1/2)) (cx2 - w2 * (1/2)) < min (cx + w * (1/2)) (cx2 + w2 * (1/2)) ∧
  max (cy - h * (1/2)) (cy2 - h2 * (1/2)) < min (cy + h * (1/2)) (cy2 + h2 * (1/2))


/-- Pure (check-free) version of `placeCell` for a square grid of side
n: all array accesses of `placeCell` are in bounds there, so the two
agree (proved below). -/
def placePure (dims : Nat × Nat → ℚ × ℚ) (eqg : Bool) (pitchx pitchy : ℚ)
    (n : Nat) (st : SweepState) (ij : Nat × Nat) : SweepState :=
  let i := ij.1
  let j := ij.2
  let padX1 :=
    if j < n - 1 then
      Function.update st.padX (i, j + 1)
        (st.padX (i, j) +
          ((dims (i, j)).1 + (dims (i, j + 1)).1) * (1/2) * (if eqg then 1 else 0) + pitchx)
    else st.padX
  let padY1 :=
    if i < n - 1 then
      Function.update st.padY (i + 1, j)
        (st.padY (i, j) +
          ((dims (i, j)).2 + (dims (i + 1, j)).2) * (1/2) * (if eqg then 1 else 0) + pitchy)
    else st.padY
  ⟨padX1, padY1, st.placed ++ [(i, j, padX1 (i, j), padY1 (i, j))]⟩

/-- Cumulative x padding of row i derived from a dimensions array. -/
def cumPadX (dims : Nat × Nat → ℚ × ℚ) (eqg : Bool) (pitchx : ℚ) (i j : Nat) : ℚ :=
  cumPad (fun k => (dims (i, k)).1) eqg pitchx j

/-- Cumulative y padding of column j derived from a dimensions array. -/
def cumPadY (dims : Nat × Nat → ℚ × ℚ) (eqg : Bool) (pitchy : ℚ) (j i : Nat) : ℚ :=
  cumPad (fun k => (dims (k, j)).2) eqg pitchy i

/-- Dimensions array produced by the measurement pass, as a function of
the grid position. -/
def measuredDims (varsx varsy : List ℚ) (dsize : ℚ → ℚ → ℚ × ℚ) :
    Nat × Nat → ℚ × ℚ :=
  fun ij => measuredSize varsx varsy dsize ij.1 ij.2

/-- Cumulative x offset at which the sweep places cell (i, j). -/
def padXspec (varsx varsy : List ℚ) (dsize : ℚ → ℚ → ℚ × ℚ) (eqg : Bool)
    (pitchx : ℚ) (i j : Nat) : ℚ :=
  cumPadX (measuredDims varsx varsy dsize) eqg pitchx i j

/-- Cumulative y offset at which the sweep places cell (i, j). -/
def padYspec (varsx varsy : List ℚ) (dsize : ℚ → ℚ → ℚ × ℚ) (eqg : Bool)
    (pitchy : ℚ) (i j : Nat) : ℚ :=
  cumPadY (measuredDims varsx varsy dsize) eqg pitchy j i
/-- Example device: one unit square on layer 1. -/
def unitSquareDev : List Pgon := [rectPgon 1 0 1 0 1]

/-- Example device with geometry on two layers: a unit square on layer 1
and a square [2,3] x [0,1] on layer 2. -/
def twoLayerDev : List Pgon := [rectPgon 1 0 1 0 1, rectPgon 2 2 3 0 1]

/-- Example device whose bounding box [10,12] x [0,2] is not centered at
the origin. -/
def offCenterDev : List Pgon := [rectPgon 1 10 12 0 2]

/-- Example device whose bounding box [-1,1] x [-1,1] is centered at the
origin. -/
def centeredDev : List Pgon := [rectPgon 1 (-1) 1 (-1) 1]

theorem foldl_min_le_init (f : Pgon → ℚ) (l : List Pgon) (a : ℚ) :
    l.foldl (fun m q => min m (f q)) a ≤ a := by
  induction l generalizing a with
  | nil => simp
  | cons p t ih => exact le_trans (ih (min a (f p))) (min_le_left _ _)

theorem foldl_min_le_mem (f : Pgon → ℚ) (l : List Pgon) (a : ℚ) (q : Pgon) :
    q ∈ l → l.foldl (fun m r => min m (f r)) a ≤ f q := by
  induction l generalizing a with
  | nil => intro h; cases h
  | cons p t ih =>
    intro h
    rcases List.mem_cons.mp h with h | h
    · subst h
      exact le_trans (foldl_min_le_init f t (min a (f q))) (min_le_right _ _)
    · exact ih (min a (f p)) h

theorem le_foldl_max_init (f : Pgon → ℚ) (l : List Pgon) (a : ℚ) :
    a ≤ l.foldl (fun m q => max m (f q)) a := by
  induction l generalizing a with
  | nil => simp
  | cons p t ih => exact le_trans (le_max_left _ _) (ih (max a (f p)))

theorem le_foldl_max_mem (f : Pgon → ℚ) (l : List Pgon) (a : ℚ) (q : Pgon) :
    q ∈ l → f q ≤ l.foldl (fun m r => max m (f r)) a := by
  induction l generalizing a with
  | nil => intro h; cases h
  | cons p t ih =>
    intro h
    rcases List.mem_cons.mp h with h | h
    · subst h
      exact le_trans (le_max_right _ _) (le_foldl_max_init f t (max a (f q)))
    · exact ih (max a (f p)) h

theorem devXmin_le (d : List Pgon) (p : Pgon) (hp : p ∈ d) : devXmin d ≤ p.xmin := by
  cases d with
  | nil => cases hp
  | cons q t =>
    rcases List.mem_cons.mp hp with h | h
    · subst h; exact foldl_min_le_init _ _ _
    · exact foldl_min_le_mem _ _ _ _ h

theorem le_devXmax (d : List Pgon) (p : Pgon) (hp : p ∈ d) : p.xmax ≤ devXmax d := by
  cases d with
  | nil => cases hp
  | cons q t =>
    rcases List.mem_cons.mp hp with h | h
    · subst h; exact le_foldl_max_init _ _ _
    · exact le_foldl_max_mem _ _ _ _ h

theorem devYmin_le (d : List Pgon) (p : Pgon) (hp : p ∈ d) : devYmin d ≤ p.ymin := by
  cases d with
  | nil => cases hp
  | cons q t =>
    rcases List.mem_cons.mp hp with h | h
    · subst h; exact foldl_min_le_init _ _ _
    · exact foldl_min_le_mem _ _ _ _ h

theorem le_devYmax (d : List Pgon) (p : Pgon) (hp : p ∈ d) : p.ymax ≤ devYmax d := by
  cases d with
  | nil => cases hp
  | cons q t =>
    rcases List.mem_cons.mp hp with h | h
    · subst h; exact le_foldl_max_init _ _ _
    · exact le_foldl_max_mem _ _ _ _ h

/-- Claim C8: evaluation at the failing input.  On a device with no
geometry the kernel bounding-box guard yields the degenerate box
((0,0),(0,0)), and the source of `invert` (and likewise `add_label`)
silently proceeds with it and returns a degenerate zero-size result:
no EmptyGeometry error, and no failure of any kind, is raised. -/
theorem invert_empty_device_silently_degenerate :
    (invert ([] : List Pgon) 1 0).map (fun r => (r.xmin, r.xmax, r.ymin, r.ymax)) =
      .ok (0, 0, 0, 0) ∧
    invert ([] : List Pgon) 1 0 ≠ .error "EmptyGeometry" ∧
    (add_label ([] : List Pgon) "r" 1 2 2 0).map List.length = .ok 1 := by
  refine ⟨?_, ?_, ?_⟩
  · with_unfolding_all rfl
  · intro h
    exact Except.noConfusion h
  · with_unfolding_all rfl

/-- Claim C3, counterexample: for a device whose only polygon is a unit
square on layer 1, inverting onto layer 2 with padding 0 subtracts the
square (the source passes the whole device to the boolean operation),
so the center of the square is not covered; under the claim wording
(subtract only the polygons on the given layer, of which there are
none) the center would be covered. -/
theorem invert_layer_restriction_counterexample :
    (invert unitSquareDev 2 0).map (fun r => r.mem (1/2) (1/2)) = .ok false ∧
    (invertOnGivenLayer unitSquareDev 2 0).map (fun r => r.mem (1/2) (1/2)) = .ok true := by
  constructor <;> with_unfolding_all rfl

theorem invert_ok_pointwise (d : List Pgon) (hd : d ≠ [])
    (layer : Nat) (padFrac : ℚ) :
    ∃ r, invert d layer padFrac = .ok r ∧ r.layer = layer ∧
      ∀ x y : ℚ,
        r.mem x y =
          (rectMem (devXmin d - padFrac * devXsize d) (devXmax d + padFrac * devXsize d)
            (devYmin d - padFrac * devYsize d) (devYmax d + padFrac * devYsize d) x y
            && !devMem d x y) := by
  cases d with
  | nil => exact absurd rfl hd
  | cons p t => exact ⟨_, rfl, rfl, fun x y => rfl⟩

/-- Claim C3, amended: for every device with nonempty geometry and
padding ratio at least 0, `invert` returns the boolean set-difference of
the padded bounding rectangle minus the union of ALL of the device
polygons (on every layer, as the source passes the whole device as
operand B), placed on the requested layer. -/
theorem invert_is_padded_box_minus_whole_device (d : List Pgon) (hd : d ≠ [])
    (layer : Nat) (padFrac : ℚ) (_hpf : 0 ≤ padFrac) :
    ∃ r, invert d layer padFrac = .ok r ∧ r.layer = layer ∧
      ∀ x y : ℚ,
        r.mem x y =
          (rectMem (devXmin d - padFrac * devXsize d) (devXmax d + padFrac * devXsize d)
            (devYmin d - padFrac * devYsize d) (devYmax d + padFrac * devYsize d) x y
            && !devMem d x y) :=
  invert_ok_pointwise d hd layer padFrac

theorem invert_is_padded_box_minus_whole_device_witness :
    ∃ r, invert unitSquareDev 1 0 = .ok r ∧ r.layer = 1 ∧
      ∀ x y : ℚ,
        r.mem x y =
          (rectMem (devXmin unitSquareDev - 0 * devXsize unitSquareDev)
            (devXmax unitSquareDev + 0 * devXsize unitSquareDev)
            (devYmin unitSquareDev - 0 * devYsize unitSquareDev)
            (devYmax unitSquareDev + 0 * devYsize unitSquareDev) x y
            && !devMem unitSquareDev x y) :=
  invert_is_padded_box_minus_whole_device unitSquareDev
    (by simp [unitSquareDev]) 1 0 le_rfl

/-- Claim C4, counterexample: for a device with a unit square on layer 1
and another square on layer 2, the point (5/2, 1/2) lies in the
bounding rectangle but neither in `invert(1, 0)` (the source subtracts
the whole device, including the layer-2 square that covers the point)
nor in the layer-1 polygons, so the layer-restricted union of the claim
does not cover the bounding rectangle. -/
theorem invert_union_not_bbox_counterexample :
    (invert twoLayerDev 1 0).map (fun r => r.mem (5/2) (1/2)) = .ok false ∧
    devMemLayer twoLayerDev 1 (5/2) (1/2) = false ∧
    inBoundingBox twoLayerDev (5/2) (1/2) := by
  refine ⟨?_, ?_, ?_, ?_, ?_, ?_⟩
  · with_unfolding_all rfl
  · with_unfolding_all rfl
  · with_unfolding_all decide
  · with_unfolding_all decide
  · with_unfolding_all decide
  · with_unfolding_all decide

/-- Claim C4, amended: for every device with nonempty geometry whose
polygon point sets lie within their recorded vertex extents, the union
of `invert(layer, 0)` with the point set of ALL of the device polygons
(not only those on the given layer) is exactly the bounding rectangle,
and the two sets are disjoint: inversion is the exact complement within
the bounding box. -/
theorem invert_zero_padding_exact_complement (d : List Pgon) (hd : d ≠ [])
    (layer : Nat)
    (hin : ∀ p ∈ d, ∀ x y : ℚ, p.mem x y = true →
      p.xmin ≤ x ∧ x ≤ p.xmax ∧ p.ymin ≤ y ∧ y ≤ p.ymax) :
    ∃ r, invert d layer 0 = .ok r ∧
      ∀ x y : ℚ,
        ((r.mem x y = true ∨ devMem d x y = true) ↔ inBoundingBox d x y) ∧
        ¬(r.mem x y = true ∧ devMem d x y = true) := by
  obtain ⟨r, hr, hlay, hmem⟩ := invert_ok_pointwise d hd layer 0
  refine ⟨r, hr, fun x y => ?_⟩
  have hb : rectMem (devXmin d - 0 * devXsize d) (devXmax d + 0 * devXsize d)
      (devYmin d - 0 * devYsize d) (devYmax d + 0 * devYsize d) x y = true ↔
      inBoundingBox d x y := by
    simp [rectMem, inBoundingBox, and_assoc]
  constructor
  · constructor
    · rintro (h | h)
      · rw [hmem, Bool.and_eq_true] at h
        exact hb.mp h.1
      · obtain ⟨p, hp, hpx⟩ := List.any_eq_true.mp h
        obtain ⟨h1, h2, h3, h4⟩ := hin p hp x y hpx
        exact ⟨le_trans (devXmin_le d p hp) h1, le_trans h2 (le_devXmax d p hp),
               le_trans (devYmin_le d p hp) h3, le_trans h4 (le_devYmax d p hp)⟩
    · intro hbb
      by_cases hdm : devMem d x y = true
      · exact Or.inr hdm
      · refine Or.inl ?_
        rw [hmem, Bool.and_eq_true]
        refine ⟨hb.mpr hbb, ?_⟩
        simp only [Bool.not_eq_true] at hdm
        simp [hdm]
  · rintro ⟨h1, h2⟩
    rw [hmem, Bool.and_eq_true] at h1
    have h3 := h1.2
    rw [h2] at h3
    exact absurd h3 (by decide)

theorem invert_zero_padding_exact_complement_witness :
    ∃ r, invert unitSquareDev 1 0 = .ok r ∧
      ∀ x y : ℚ,
        ((r.mem x y = true ∨ devMem unitSquareDev x y = true) ↔
          inBoundingBox unitSquareDev x y) ∧
        ¬(r.mem x y = true ∧ devMem unitSquareDev x y = true) :=
  invert_zero_padding_exact_complement unitSquareDev (by simp [unitSquareDev]) 1
    (by
      intro p hp x y hm
      simp only [unitSquareDev, List.mem_singleton] at hp
      subst hp
      simpa [rectPgon, rectMem, and_assoc] using hm)

/-- Claim C6: `add_label` first asserts that the orientation indicator
is one of r, l, t, b and raises the descriptive assertion message for
any other value before touching any geometry; for the four valid
indicators this error is never raised. -/
theorem add_label_orientation_check (host : List Pgon) (orient : String)
    (textLayer : Nat) (tx ty dist : ℚ) :
    (¬(orient = "r" ∨ orient = "l" ∨ orient = "t" ∨ orient = "b") →
      add_label host orient textLayer tx ty dist = .error orientMsg) ∧
    ((orient = "r" ∨ orient = "l" ∨ orient = "t" ∨ orient = "b") →
      add_label host orient textLayer tx ty dist ≠ .error orientMsg) := by
  constructor
  · intro h
    unfold add_label
    rw [if_neg h]
  · intro h
    unfold add_label
    rw [if_pos h]
    intro hc
    exact Except.noConfusion hc

theorem add_label_orientation_check_witness :
    add_label unitSquareDev "x" 3 2 2 0 = .error orientMsg ∧
    add_label unitSquareDev "r" 3 2 2 0 ≠ .error orientMsg :=
  ⟨(add_label_orientation_check unitSquareDev "x" 3 2 2 0).1 (by decide),
   (add_label_orientation_check unitSquareDev "r" 3 2 2 0).2 (Or.inl rfl)⟩

/-- Claim C7, counterexample: for a host occupying [10,12] x [0,2] (not
centered at the origin) and a rendered label of extent 2 x 2 placed to
the right at distance 1, the inserted label has xmin 2 and y-centroid 0,
while host xmax + distance is 13 and the host y-centroid is 1: the
label offset is computed from the host extent only, relative to the
origin, not relative to the host bounding box. -/
theorem add_label_right_placement_counterexample :
    (add_label offCenterDev "r" 1 2 2 1).map (fun d => d.getLast?.map Pgon.xmin) =
      .ok (some 2) ∧
    devXmax offCenterDev + 1 = 13 ∧
    (add_label offCenterDev "r" 1 2 2 1).map (fun d => d.getLast?.map pgonYCentroid) =
      .ok (some 0) ∧
    devYCentroid offCenterDev = 1 ∧
    (2 : ℚ) ≠ 13 ∧ (0 : ℚ) ≠ 1 := by
  refine ⟨?_, ?_, ?_, ?_, ?_, ?_⟩
  · with_unfolding_all rfl
  · with_unfolding_all rfl
  · with_unfolding_all rfl
  · with_unfolding_all rfl
  · with_unfolding_all decide
  · with_unfolding_all decide

/-- Claim C7, amended: for every host device with nonempty geometry
whose bounding box is centered at the origin, placing a label with
orientation r at distance `dist` inserts a label polygon whose xmin is
host xmax + dist and whose y-centroid coincides with the host
y-centroid. -/
theorem add_label_r_eq (p : Pgon) (t : List Pgon) (textLayer : Nat) (tx ty dist : ℚ) :
    add_label (p :: t) "r" textLayer tx ty dist =
      .ok ((p :: t) ++
        [{ layer := textLayer,
           xmin := -(tx * (1/2)) + ((tx + devXsize (p :: t)) * (1/2) + dist),
           xmax := tx * (1/2) + ((tx + devXsize (p :: t)) * (1/2) + dist),
           ymin := -(ty * (1/2)) + 0,
           ymax := ty * (1/2) + 0,
           mem := fun x y =>
             rectMem (-(tx * (1/2)) + ((tx + devXsize (p :: t)) * (1/2) + dist))
               (tx * (1/2) + ((tx + devXsize (p :: t)) * (1/2) + dist))
               (-(ty * (1/2)) + 0) (ty * (1/2) + 0) x y }]) := by
  simp only [add_label, String.reduceEq, reduceIte, or_false, or_true, true_or, false_or,
    if_true]

/-- Claim C7, amended: for every host device with nonempty geometry
whose bounding box is centered at the origin (the label shift is
computed from the host extent only, relative to the origin of the host
frame), placing a label with orientation r at distance `dist` inserts a
label polygon whose xmin is host xmax + dist and whose y-centroid
coincides with the host y-centroid. -/
theorem add_label_right_placement_centered (host : List Pgon) (hne : host ≠ [])
    (hcx : devXmin host = -devXmax host) (hcy : devYmin host = -devYmax host)
    (textLayer : Nat) (tx ty dist : ℚ) :
    ∃ lp, add_label host "r" textLayer tx ty dist = .ok (host ++ [lp]) ∧
      lp.xmin = devXmax host + dist ∧ pgonYCentroid lp = devYCentroid host := by
  cases host with
  | nil => exact absurd rfl hne
  | cons p t =>
    refine ⟨_, add_label_r_eq p t textLayer tx ty dist, ?_, ?_⟩
    · show -(tx * (1/2)) + ((tx + devXsize (p :: t)) * (1/2) + dist) =
        devXmax (p :: t) + dist
      rw [devXsize, hcx]
      ring
    · show (-(ty * (1/2)) + 0 + (ty * (1/2) + 0)) * (1/2) = devYCentroid (p :: t)
      unfold devYCentroid
      rw [hcy]
      ring

theorem add_label_right_placement_centered_witness :
    ∃ lp, add_label centeredDev "r" 3 2 2 1 = .ok (centeredDev ++ [lp]) ∧
      lp.xmin = devXmax centeredDev + 1 ∧
      pgonYCentroid lp = devYCentroid centeredDev :=
  add_label_right_placement_centered centeredDev (by simp [centeredDev])
    (by with_unfolding_all decide) (by with_unfolding_all decide) 3 2 2 1

theorem ellipseFold_length (l : List (ℚ × ℚ × ℚ)) :
    ∀ acc : ℚ × List EllipseShape,
      ((l.foldl ellipseStep acc).2).length = acc.2.length + l.length := by
  induction l with
  | nil => intro acc; simp
  | cons a t ih =>
    intro acc
    rw [List.foldl_cons, ih]
    simp [ellipseStep]
    omega

theorem pyIntIs_eq {a b : ℤ} (h : pyIntIs a b = true) : a = b := by
  unfold pyIntIs at h
  rw [Bool.and_eq_true, Bool.and_eq_true] at h
  exact beq_iff_eq.mp h.1.1

theorem pyIntIs_true {a b : ℤ} (h1 : a = b) (h2 : -5 ≤ a) (h3 : a ≤ 256) :
    pyIntIs a b = true := by
  unfold pyIntIs
  rw [Bool.and_eq_true, Bool.and_eq_true]
  exact ⟨⟨beq_iff_eq.mpr h1, decide_eq_true h2⟩, decide_eq_true h3⟩

/-- Length checking of `EllipseArray`: any violation of the two length
conditions makes an assertion fire before any geometry is created, and
when both conditions hold with lengths inside the CPython small-int
cache (at most 256, where `is` behaves as numeric equality),
construction succeeds with one ellipse per `(hx, hy)` pair. -/
theorem EllipseArray_length_check (hx_array hy_array a_consts_array : List ℚ) :
    (((hy_array.length : ℤ) ≠ (hx_array.length : ℤ) ∨
        (a_consts_array.length : ℤ) ≠ (hx_array.length : ℤ) - 1) →
      EllipseArray hx_array hy_array a_consts_array =
        .error "Please provide arrays of equal length") ∧
    ((hy_array.length : ℤ) = (hx_array.length : ℤ) →
      (a_consts_array.length : ℤ) = (hx_array.length : ℤ) - 1 →
      hx_array.length ≤ 256 →
      ∃ es, EllipseArray hx_array hy_array a_consts_array = .ok es ∧
        es.length = hx_array.length) := by
  constructor
  · intro h
    unfold EllipseArray
    by_cases h1 : pyIntIs (hy_array.length : ℤ) (hx_array.length : ℤ) = true
    · rw [if_pos h1]
      rcases h with h | h
      · exact absurd (pyIntIs_eq h1) h
      · rw [if_neg (fun h2 => h (pyIntIs_eq h2))]
    · rw [if_neg h1]
  · intro h1 h2 h3
    unfold EllipseArray
    rw [if_pos (pyIntIs_true h1 (by omega) (by omega)),
      if_pos (pyIntIs_true h2 (by omega) (by omega))]
    refine ⟨_, rfl, ?_⟩
    rw [ellipseFold_length]
    simp only [List.length_zip, List.length_cons, List.length_nil]
    omega

theorem EllipseArray_length_check_witness :
    EllipseArray [1, 2] [1] [3] = .error "Please provide arrays of equal length" ∧
    ∃ es, EllipseArray [1, 2] [1, 2] [3] = .ok es ∧
      es.length = ([1, 2] : List ℚ).length :=
  ⟨(EllipseArray_length_check [1, 2] [1] [3]).1 (by decide),
   (EllipseArray_length_check [1, 2] [1, 2] [3]).2 (by decide) (by decide) (by decide)⟩

set_option maxRecDepth 8192 in
/-- Claim C9: evaluation at the failing input.  The source compares the
array lengths with the Python `is` operator (object identity), not
`==`; for equal lengths above the CPython small-int cache (greater
than 256) the two freshly computed int objects are distinct and the
first assertion fires even though both length conditions of the claim
hold: arrays of length 257 with 256 lattice constants are rejected
with the very message that asks for arrays of equal length. -/
theorem EllipseArray_equal_large_lengths_assert_fires :
    ((List.replicate 257 (1 : ℚ)).length : ℤ) = 257 ∧
    ((List.replicate 256 (1 : ℚ)).length : ℤ) = (257 : ℤ) - 1 ∧
    EllipseArray (List.replicate 257 1) (List.replicate 257 1) (List.replicate 256 1) =
      .error "Please provide arrays of equal length" := by
  refine ⟨?_, ?_, ?_⟩
  · with_unfolding_all rfl
  · with_unfolding_all rfl
  · with_unfolding_all rfl

/-- Claim C10: `RetroReflector.__init__` overwrites the three keys
which_anchors, add_taper_marker and len_tp_right of the caller params
dictionary in place before delegating to `TaperedWaveGuide` (which
never writes into the dictionary), so after construction the caller
dictionary holds [1, 3], False and 0 under those keys regardless of
what it held before. -/
theorem RetroReflector_overwrites_params (params : PyDict) :
    RetroReflector params "which_anchors" = some (.pyIntList [1, 3]) ∧
    RetroReflector params "add_taper_marker" = some (.pyBool false) ∧
    RetroReflector params "len_tp_right" = some (.pyInt 0) := by
  refine ⟨?_, ?_, ?_⟩ <;>
    simp [RetroReflector, TaperedWaveGuide_params_effect, dset]

theorem listGet_ok (l : List ℚ) (i : Nat) (h : i < l.length) :
    listGet l i = .ok (l.getD i 0) := by
  unfold listGet
  rw [dif_pos h]
  congr 1
  rw [List.getD_eq_getElem l 0 h]
  simp

theorem npGet_ok (nx ny : Nat) (a : Nat × Nat → ℚ) (i j : Nat)
    (hi : i < nx) (hj : j < ny) : npGet nx ny a i j = .ok (a (i, j)) := by
  unfold npGet
  rw [if_pos ⟨hi, hj⟩]

theorem npSet_ok (nx ny : Nat) (a : Nat × Nat → ℚ) (i j : Nat) (v : ℚ)
    (hi : i < nx) (hj : j < ny) :
    npSet nx ny a i j v = .ok (Function.update a (i, j) v) := by
  unfold npSet
  rw [if_pos ⟨hi, hj⟩]

theorem npGetP_ok (nx ny : Nat) (a : Nat × Nat → ℚ × ℚ) (i j : Nat)
    (hi : i < nx) (hj : j < ny) : npGetP nx ny a i j = .ok (a (i, j)) := by
  unfold npGetP
  rw [if_pos ⟨hi, hj⟩]

theorem npSetP_ok (nx ny : Nat) (a : Nat × Nat → ℚ × ℚ) (i j : Nat) (v : ℚ × ℚ)
    (hi : i < nx) (hj : j < ny) :
    npSetP nx ny a i j v = .ok (Function.update a (i, j) v) := by
  unfold npSetP
  rw [if_pos ⟨hi, hj⟩]

theorem pair_ne_right {a b d : Nat} (h : b ≠ d) : ((a, b) : Nat × Nat) ≠ (a, d) :=
  fun he => h (congrArg Prod.snd he)

theorem pair_ne_left {a c b d : Nat} (h : a ≠ c) : ((a, b) : Nat × Nat) ≠ (c, d) :=
  fun he => h (congrArg Prod.fst he)

theorem mem_sweepCells (n i j : Nat) : (i, j) ∈ sweepCells n ↔ i < n ∧ j < n := by
  simp [sweepCells]

/-- Claim C2: with axes of different lengths the sweep constructor does
not fail fast with a clear validation error; it indexes out of range.
Evaluated at varsx = [1], varsy = [1, 2]: both loops run over
range(len(varsx)) twice, so the measurement pass silently ignores
varsy[1], and the placement pass crashes with an IndexError reading the
dimensions array at row i + 1 = 1 (the arrays have only
len(varsx) = 1 row although the guard `i < num_iter_y - 1` holds). -/
theorem RectangularSweep_unequal_axes_indexerror :
    RectangularSweep [1] [1, 2] (fun a b => (a, b)) true 0 0 = .error "IndexError" := by
  with_unfolding_all rfl

theorem measureCell_ok (varsx varsy : List ℚ) (dsize : ℚ → ℚ → ℚ × ℚ) (n : Nat)
    (hx : varsx.length = n) (hy : varsy.length = n)
    (dims : Nat × Nat → ℚ × ℚ) (c : Nat × Nat) (h1 : c.1 < n) (h2 : c.2 < n) :
    measureCell varsx varsy dsize n n dims c =
      .ok (Function.update dims c (measuredSize varsx varsy dsize c.1 c.2)) := by
  unfold measureCell
  rw [listGet_ok varsx c.1 (by omega), listGet_ok varsy c.2 (by omega)]
  show npSetP n n dims c.1 c.2 _ = _
  rw [npSetP_ok n n dims c.1 c.2 _ h1 h2]
  rfl

theorem measure_fold_ok (varsx varsy : List ℚ) (dsize : ℚ → ℚ → ℚ × ℚ) (n : Nat)
    (hx : varsx.length = n) (hy : varsy.length = n) :
    ∀ (L : List (Nat × Nat)), (∀ ij ∈ L, ij.1 < n ∧ ij.2 < n) →
      ∀ dims0 : Nat × Nat → ℚ × ℚ,
      L.foldlM (measureCell varsx varsy dsize n n) dims0 =
        .ok (L.foldl (fun dims ij =>
          Function.update dims ij (measuredSize varsx varsy dsize ij.1 ij.2)) dims0) := by
  intro L
  induction L with
  | nil => intro _ dims0; rfl
  | cons c t ih =>
    intro hall dims0
    obtain ⟨h1, h2⟩ := hall c (List.mem_cons_self c t)
    rw [List.foldlM_cons, measureCell_ok varsx varsy dsize n hx hy dims0 c h1 h2]
    show t.foldlM (measureCell varsx varsy dsize n n) _ = _
    rw [ih (fun ij h => hall ij (List.mem_cons_of_mem c h)) _]
    rw [List.foldl_cons]

theorem update_foldl_not_mem (v : Nat × Nat → ℚ × ℚ) :
    ∀ (L : List (Nat × Nat)) (d0 : Nat × Nat → ℚ × ℚ) (c : Nat × Nat), c ∉ L →
      (L.foldl (fun d ij => Function.update d ij (v ij)) d0) c = d0 c := by
  intro L
  induction L with
  | nil => intro d0 c _; rfl
  | cons a t ih =>
    intro d0 c hc
    rw [List.foldl_cons, ih _ c (fun h => hc (List.mem_cons_of_mem a h))]
    refine Function.update_noteq (fun h => hc ?_) _ _
    rw [h]
    exact List.mem_cons_self a t

theorem update_foldl_mem (v : Nat × Nat → ℚ × ℚ) :
    ∀ (L : List (Nat × Nat)) (d0 : Nat × Nat → ℚ × ℚ) (c : Nat × Nat), c ∈ L →
      (L.foldl (fun d ij => Function.update d ij (v ij)) d0) c = v c := by
  intro L
  induction L with
  | nil => intro d0 c hc; cases hc
  | cons a t ih =>
    intro d0 c hc
    rw [List.foldl_cons]
    by_cases hmem : c ∈ t
    · exact ih _ c hmem
    · have hca : c = a := by
        rcases List.mem_cons.mp hc with h | h
        · exact h
        · exact absurd h hmem
      subst hca
      rw [update_foldl_not_mem v t _ c hmem, Function.update_same]

theorem exc_bind_ok {α β : Type} (a : α) (f : α → Except String β) :
    (Except.ok a >>= f) = f a := rfl

theorem exc_pure_bind {α β : Type} (a : α) (f : α → Except String β) :
    ((pure a : Except String α) >>= f) = f a := rfl

theorem npGet_ok2 (nx ny i j : Nat) (hi : i < nx) (hj : j < ny) :
    ∀ a : Nat × Nat → ℚ, npGet nx ny a i j = .ok (a (i, j)) :=
  fun a => npGet_ok nx ny a i j hi hj

theorem npSet_ok2 (nx ny i j : Nat) (hi : i < nx) (hj : j < ny) :
    ∀ (a : Nat × Nat → ℚ) (v : ℚ),
      npSet nx ny a i j v = .ok (Function.update a (i, j) v) :=
  fun a v => npSet_ok nx ny a i j v hi hj

theorem npGetP_ok2 (nx ny i j : Nat) (hi : i < nx) (hj : j < ny) :
    ∀ a : Nat × Nat → ℚ × ℚ, npGetP nx ny a i j = .ok (a (i, j)) :=
  fun a => npGetP_ok nx ny a i j hi hj

theorem placeCell_ok (dims : Nat × Nat → ℚ × ℚ) (eqg : Bool) (pitchx pitchy : ℚ)
    (varsx varsy : List ℚ) (n : Nat) (hx : varsx.length = n) (hy : varsy.length = n)
    (st : SweepState) (c : Nat × Nat) (h1 : c.1 < n) (h2 : c.2 < n) :
    placeCell dims eqg pitchx pitchy varsx varsy n n st c =
      .ok (placePure dims eqg pitchx pitchy n st c) := by
  simp only [placeCell, placePure]
  rw [listGet_ok varsx c.1 (by omega), listGet_ok varsy c.2 (by omega)]
  simp only [exc_bind_ok]
  by_cases hj1 : c.2 < n - 1
  · by_cases hi1 : c.1 < n - 1
    · simp only [if_pos hj1, if_pos hi1,
        npGetP_ok2 n n c.1 c.2 h1 h2, npGetP_ok2 n n c.1 (c.2 + 1) h1 (by omega),
        npGetP_ok2 n n (c.1 + 1) c.2 (by omega) h2,
        npGet_ok2 n n c.1 c.2 h1 h2,
        npSet_ok2 n n c.1 (c.2 + 1) h1 (by omega),
        npSet_ok2 n n (c.1 + 1) c.2 (by omega) h2,
        exc_bind_ok, exc_pure_bind]
      try rfl
    · simp only [if_pos hj1, if_neg hi1,
        npGetP_ok2 n n c.1 c.2 h1 h2, npGetP_ok2 n n c.1 (c.2 + 1) h1 (by omega),
        npGet_ok2 n n c.1 c.2 h1 h2,
        npSet_ok2 n n c.1 (c.2 + 1) h1 (by omega),
        exc_bind_ok, exc_pure_bind]
      try rfl
  · by_cases hi1 : c.1 < n - 1
    · simp only [if_neg hj1, if_pos hi1,
        npGetP_ok2 n n c.1 c.2 h1 h2,
        npGetP_ok2 n n (c.1 + 1) c.2 (by omega) h2,
        npGet_ok2 n n c.1 c.2 h1 h2,
        npSet_ok2 n n (c.1 + 1) c.2 (by omega) h2,
        exc_bind_ok, exc_pure_bind]
      try rfl
    · simp only [if_neg hj1, if_neg hi1,
        npGet_ok2 n n c.1 c.2 h1 h2,
        exc_bind_ok, exc_pure_bind]
      try rfl

theorem place_fold_ok (dims : Nat × Nat → ℚ × ℚ) (eqg : Bool) (pitchx pitchy : ℚ)
    (varsx varsy : List ℚ) (n : Nat) (hx : varsx.length = n) (hy : varsy.length = n) :
    ∀ (L : List (Nat × Nat)), (∀ ij ∈ L, ij.1 < n ∧ ij.2 < n) →
      ∀ st : SweepState,
      L.foldlM (placeCell dims eqg pitchx pitchy varsx varsy n n) st =
        .ok (L.foldl (placePure dims eqg pitchx pitchy n) st) := by
  intro L
  induction L with
  | nil => intro _ st; rfl
  | cons c t ih =>
    intro hall st
    obtain ⟨h1, h2⟩ := hall c (List.mem_cons_self c t)
    rw [List.foldlM_cons,
      placeCell_ok dims eqg pitchx pitchy varsx varsy n hx hy st c h1 h2]
    show t.foldlM (placeCell dims eqg pitchx pitchy varsx varsy n n) _ = _
    rw [ih (fun ij h => hall ij (List.mem_cons_of_mem c h)) _, List.foldl_cons]

theorem cumPadX_succ (dims : Nat × Nat → ℚ × ℚ) (eqg : Bool) (px : ℚ) (i j : Nat) :
    cumPadX dims eqg px i (j + 1) =
      cumPadX dims eqg px i j +
        ((dims (i, j)).1 + (dims (i, j + 1)).1) * (1/2) * (if eqg then 1 else 0) + px := rfl

theorem cumPadY_succ (dims : Nat × Nat → ℚ × ℚ) (eqg : Bool) (py : ℚ) (j i : Nat) :
    cumPadY dims eqg py j (i + 1) =
      cumPadY dims eqg py j i +
        ((dims (i, j)).2 + (dims (i + 1, j)).2) * (1/2) * (if eqg then 1 else 0) + py := rfl

theorem row_fold (dims : Nat × Nat → ℚ × ℚ) (eqg : Bool) (px py : ℚ) (n i : Nat) :
    ∀ (k j : Nat), j + k = n → ∀ st : SweepState,
    (∀ b, b ≤ j → b < n → st.padX (i, b) = cumPadX dims eqg px i b) →
    (∀ b, b < n → st.padY (i, b) = cumPadY dims eqg py b i) →
    ∀ st2, ((List.range' j k).map (fun b2 => (i, b2))).foldl
        (placePure dims eqg px py n) st = st2 →
      (∀ b, b < n → st2.padX (i, b) = cumPadX dims eqg px i b) ∧
      (∀ a b, a ≠ i → st2.padX (a, b) = st.padX (a, b)) ∧
      (i + 1 < n → ∀ b, j ≤ b → b < j + k →
        st2.padY (i + 1, b) = cumPadY dims eqg py b (i + 1)) ∧
      (∀ a b, a ≠ i + 1 → st2.padY (a, b) = st.padY (a, b)) ∧
      (∀ b, b < j → st2.padY (i + 1, b) = st.padY (i + 1, b)) ∧
      st2.placed = st.placed ++ (List.range' j k).map
        (fun b2 => (i, b2, cumPadX dims eqg px i b2, cumPadY dims eqg py b2 i)) := by
  intro k
  induction k with
  | zero =>
    intro j hjk st hX hY st2 hst2
    subst hst2
    exact ⟨fun b hb => hX b (by omega) hb, fun a b _ => rfl,
      fun _ b hb1 hb2 => absurd (lt_of_le_of_lt hb1 hb2) (by omega),
      fun a b _ => rfl, fun b _ => rfl, (List.append_nil st.placed).symm⟩
  | succ k ih =>
    intro j hjk st hX hY st2 hst2
    have hjn : j < n := by omega
    rw [List.range'_succ, List.map_cons, List.foldl_cons] at hst2
    have hX1 : ∀ b, b ≤ j + 1 → b < n →
        (placePure dims eqg px py n st (i, j)).padX (i, b) =
          cumPadX dims eqg px i b := by
      intro b hb1 hb2
      simp only [placePure]
      by_cases hj1 : j < n - 1
      · rw [if_pos hj1]
        by_cases hbj : b = j + 1
        · subst hbj
          rw [Function.update_same, hX j le_rfl (by omega), cumPadX_succ]
        · rw [Function.update_noteq (pair_ne_right hbj)]
          exact hX b (by omega) hb2
      · rw [if_neg hj1]
        exact hX b (by omega) hb2
    have hX1O : ∀ a b, a ≠ i →
        (placePure dims eqg px py n st (i, j)).padX (a, b) = st.padX (a, b) := by
      intro a b ha
      simp only [placePure]
      by_cases hj1 : j < n - 1
      · rw [if_pos hj1, Function.update_noteq (pair_ne_left ha)]
      · rw [if_neg hj1]
    have hY1row : ∀ b, b < n →
        (placePure dims eqg px py n st (i, j)).padY (i, b) =
          cumPadY dims eqg py b i := by
      intro b hb
      simp only [placePure]
      by_cases hi1 : i < n - 1
      · rw [if_pos hi1, Function.update_noteq (pair_ne_left (by omega))]
        exact hY b hb
      · rw [if_neg hi1]
        exact hY b hb
    have hY1O : ∀ a b, a ≠ i + 1 →
        (placePure dims eqg px py n st (i, j)).padY (a, b) = st.padY (a, b) := by
      intro a b ha
      simp only [placePure]
      by_cases hi1 : i < n - 1
      · rw [if_pos hi1, Function.update_noteq (pair_ne_left ha)]
      · rw [if_neg hi1]
    have hY1keep : ∀ b, b ≠ j →
        (placePure dims eqg px py n st (i, j)).padY (i + 1, b) = st.padY (i + 1, b) := by
      intro b hb
      simp only [placePure]
      by_cases hi1 : i < n - 1
      · rw [if_pos hi1, Function.update_noteq (pair_ne_right hb)]
      · rw [if_neg hi1]
    have hY1write : i + 1 < n →
        (placePure dims eqg px py n st (i, j)).padY (i + 1, j) =
          cumPadY dims eqg py j (i + 1) := by
      intro hin
      simp only [placePure]
      rw [if_pos (by omega : i < n - 1), Function.update_same, hY j hjn, cumPadY_succ]
    have hP1 : (placePure dims eqg px py n st (i, j)).placed =
        st.placed ++ [(i, j, cumPadX dims eqg px i j, cumPadY dims eqg py j i)] := by
      simp only [placePure]
      have e1 : (if j < n - 1 then
          Function.update st.padX (i, j + 1)
            (st.padX (i, j) +
              ((dims (i, j)).1 + (dims (i, j + 1)).1) * (1/2) * (if eqg then 1 else 0) + px)
          else st.padX) (i, j) = cumPadX dims eqg px i j := by
        by_cases hj1 : j < n - 1
        · rw [if_pos hj1, Function.update_noteq (pair_ne_right (by omega))]
          exact hX j le_rfl hjn
        · rw [if_neg hj1]
          exact hX j le_rfl hjn
      have e2 : (if i < n - 1 then
          Function.update st.padY (i + 1, j)
            (st.padY (i, j) +
              ((dims (i, j)).2 + (dims (i + 1, j)).2) * (1/2) * (if eqg then 1 else 0) + py)
          else st.padY) (i, j) = cumPadY dims eqg py j i := by
        by_cases hi1 : i < n - 1
        · rw [if_pos hi1, Function.update_noteq (pair_ne_left (by omega))]
          exact hY j hjn
        · rw [if_neg hi1]
          exact hY j hjn
      rw [e1, e2]
    obtain ⟨RX, RXO, RY, RYO, RYkeep, RP⟩ :=
      ih (j + 1) (by omega) (placePure dims eqg px py n st (i, j)) hX1 hY1row st2 hst2
    refine ⟨RX, ?_, ?_, ?_, ?_, ?_⟩
    · intro a b ha
      rw [RXO a b ha, hX1O a b ha]
    · intro hin b hb1 hb2
      by_cases hbj : b = j
      · subst hbj
        rw [RYkeep b (by omega), hY1write hin]
      · exact RY hin b (by omega) (by omega)
    · intro a b ha
      rw [RYO a b ha, hY1O a b ha]
    · intro b hb
      rw [RYkeep b (by omega), hY1keep b (by omega)]
    · rw [RP, hP1, List.range'_succ, List.map_cons]
      simp

theorem grid_fold (dims : Nat × Nat → ℚ × ℚ) (eqg : Bool) (px py : ℚ) (n : Nat) :
    ∀ (m i : Nat), i + m = n → ∀ st : SweepState,
    (∀ a b, i ≤ a → st.padX (a, b) = 0) →
    (i < n → ∀ b, b < n → st.padY (i, b) = cumPadY dims eqg py b i) →
    ∀ st2, ((List.range' i m).flatMap
        (fun a => (List.range n).map (fun b => (a, b)))).foldl
        (placePure dims eqg px py n) st = st2 →
      (∀ a b, i ≤ a → a < n → b < n → st2.padX (a, b) = cumPadX dims eqg px a b) ∧
      (∀ a b, i ≤ a → a < n → b < n → st2.padY (a, b) = cumPadY dims eqg py b a) ∧
      (∀ a b, a < i → st2.padX (a, b) = st.padX (a, b)) ∧
      (∀ a b, a ≤ i → st2.padY (a, b) = st.padY (a, b)) ∧
      st2.placed = st.placed ++ (List.range' i m).flatMap
        (fun a => (List.range n).map
          (fun b => (a, b, cumPadX dims eqg px a b, cumPadY dims eqg py b a))) := by
  intro m
  induction m with
  | zero =>
    intro i hmn st hGX hGY st2 hst2
    subst hst2
    exact ⟨fun a b ha1 ha2 _ => absurd (lt_of_le_of_lt ha1 ha2) (by omega),
      fun a b ha1 ha2 _ => absurd (lt_of_le_of_lt ha1 ha2) (by omega),
      fun a b _ => rfl, fun a b _ => rfl, (List.append_nil st.placed).symm⟩
  | succ m ih =>
    intro i hmn st hGX hGY st2 hst2
    have hin : i < n := by omega
    rw [List.range'_succ, List.flatMap_cons, List.foldl_append] at hst2
    obtain ⟨CX, CXO, CY, CYO, CYkeep, CP⟩ :=
      row_fold dims eqg px py n i n 0 (by omega) st
        (fun b hb1 hb2 => by
          have hb0 : b = 0 := Nat.le_zero.mp hb1
          subst hb0
          rw [hGX i 0 le_rfl]
          rfl)
        (hGY hin)
        (((List.range n).map (fun b => (i, b))).foldl (placePure dims eqg px py n) st)
        (by rw [List.range_eq_range'])
    obtain ⟨FX, FY, FXO, FYO, FP⟩ :=
      ih (i + 1) (by omega)
        (((List.range n).map (fun b => (i, b))).foldl (placePure dims eqg px py n) st)
        (fun a b ha => by rw [CXO a b (by omega), hGX a b (by omega)])
        (fun hi1 b hb => CY hi1 b (by omega) (by omega))
        st2 hst2
    refine ⟨?_, ?_, ?_, ?_, ?_⟩
    · intro a b ha1 ha2 hb
      by_cases ha : a = i
      · subst ha
        rw [FXO a b (by omega)]
        exact CX b hb
      · exact FX a b (by omega) ha2 hb
    · intro a b ha1 ha2 hb
      by_cases ha : a = i
      · subst ha
        rw [FYO a b (by omega), CYO a b (by omega)]
        exact hGY hin b hb
      · exact FY a b (by omega) ha2 hb
    · intro a b ha
      rw [FXO a b (by omega), CXO a b (by omega)]
    · intro a b ha
      rw [FYO a b (by omega), CYO a b (by omega)]
    · rw [FP, CP]
      simp only [List.range'_succ, List.flatMap_cons, List.range_eq_range',
        List.append_assoc]

theorem cumPad_congr (s1 s2 : Nat → ℚ) (eqg : Bool) (pitch : ℚ) :
    ∀ j, (∀ k, k ≤ j → s1 k = s2 k) → cumPad s1 eqg pitch j = cumPad s2 eqg pitch j := by
  intro j
  induction j with
  | zero => intro _; rfl
  | succ j ih =>
    intro h
    show cumPad s1 eqg pitch j + (s1 j + s1 (j + 1)) * (1/2) * (if eqg then 1 else 0) + pitch =
      cumPad s2 eqg pitch j + (s2 j + s2 (j + 1)) * (1/2) * (if eqg then 1 else 0) + pitch
    rw [ih (fun k hk => h k (by omega)), h j (by omega), h (j + 1) le_rfl]

theorem flatMap_congr_left {α β : Type} {l : List α} {f g : α → List β}
    (h : ∀ a ∈ l, f a = g a) : l.flatMap f = l.flatMap g := by
  induction l with
  | nil => rfl
  | cons a t ih =>
    rw [List.flatMap_cons, List.flatMap_cons, h a (List.mem_cons_self a t),
      ih (fun b hb => h b (List.mem_cons_of_mem a hb))]

theorem RectangularSweep_eq_pure (varsx varsy : List ℚ) (dsize : ℚ → ℚ → ℚ × ℚ)
    (eqg : Bool) (px py : ℚ) (n : Nat) (hx : varsx.length = n) (hy : varsy.length = n) :
    RectangularSweep varsx varsy dsize eqg px py =
      .ok ((sweepCells n).foldl
        (placePure
          ((sweepCells n).foldl (fun dims ij =>
            Function.update dims ij (measuredSize varsx varsy dsize ij.1 ij.2))
            (fun _ => (0, 0)))
          eqg px py n)
        ⟨fun _ => 0, fun _ => 0, []⟩) := by
  have hb : ∀ ij ∈ sweepCells n, ij.1 < n ∧ ij.2 < n := by
    intro ij h
    exact (mem_sweepCells n ij.1 ij.2).mp h
  simp only [RectangularSweep]
  rw [hx, hy]
  rw [measure_fold_ok varsx varsy dsize n hx hy (sweepCells n) hb]
  simp only [exc_bind_ok]
  rw [place_fold_ok _ eqg px py varsx varsy n hx hy (sweepCells n) hb]

theorem RectangularSweep_ok (varsx varsy : List ℚ) (dsize : ℚ → ℚ → ℚ × ℚ)
    (eqg : Bool) (px py : ℚ) (n : Nat) (hx : varsx.length = n) (hy : varsy.length = n) :
    ∃ st, RectangularSweep varsx varsy dsize eqg px py = .ok st ∧
      (∀ i j, i < n → j < n →
        st.padX (i, j) = padXspec varsx varsy dsize eqg px i j ∧
        st.padY (i, j) = padYspec varsx varsy dsize eqg py i j) ∧
      st.placed = (sweepCells n).map
        (fun ij => (ij.1, ij.2, padXspec varsx varsy dsize eqg px ij.1 ij.2,
          padYspec varsx varsy dsize eqg py ij.1 ij.2)) := by
  set dF : Nat × Nat → ℚ × ℚ :=
    (sweepCells n).foldl (fun dims ij =>
      Function.update dims ij (measuredSize varsx varsy dsize ij.1 ij.2))
      (fun _ => (0, 0)) with hdF
  have hdim : ∀ a b, a < n → b < n →
      dF (a, b) = measuredDims varsx varsy dsize (a, b) := by
    intro a b ha hb
    rw [hdF]
    exact update_foldl_mem (fun ij => measuredSize varsx varsy dsize ij.1 ij.2)
      (sweepCells n) _ (a, b) ((mem_sweepCells n a b).mpr ⟨ha, hb⟩)
  have hpadX : ∀ a b, a < n → b < n →
      cumPadX dF eqg px a b = padXspec varsx varsy dsize eqg px a b := by
    intro a b ha hb
    unfold cumPadX padXspec cumPadX
    exact cumPad_congr _ _ eqg px b
      (fun k hk => congrArg Prod.fst (hdim a k ha (by omega)))
  have hpadY : ∀ a b, a < n → b < n →
      cumPadY dF eqg py b a = padYspec varsx varsy dsize eqg py a b := by
    intro a b ha hb
    unfold cumPadY padYspec cumPadY
    exact cumPad_congr _ _ eqg py a
      (fun k hk => congrArg Prod.snd (hdim k b (by omega) hb))
  obtain ⟨FX, FY, FXO, FYO, FP⟩ :=
    grid_fold dF eqg px py n n 0 (by omega) ⟨fun _ => 0, fun _ => 0, []⟩
      (fun a b _ => rfl) (fun _ b _ => rfl)
      ((sweepCells n).foldl (placePure dF eqg px py n) ⟨fun _ => 0, fun _ => 0, []⟩)
      (by unfold sweepCells; rw [List.range_eq_range'])
  refine ⟨_, RectangularSweep_eq_pure varsx varsy dsize eqg px py n hx hy, ?_, ?_⟩
  · intro i j hi hj
    refine ⟨?_, ?_⟩
    · rw [FX i j (by omega) hi hj]
      exact hpadX i j hi hj
    · rw [FY i j (by omega) hi hj]
      exact hpadY i j hi hj
  · rw [FP]
    show (List.range' 0 n).flatMap (fun a => (List.range n).map
        (fun b => (a, b, cumPadX dF eqg px a b, cumPadY dF eqg py b a))) = _
    rw [← List.range_eq_range']
    show _ = ((List.range n).flatMap (fun i => (List.range n).map fun j => (i, j))).map
      (fun ij => (ij.1, ij.2, padXspec varsx varsy dsize eqg px ij.1 ij.2,
        padYspec varsx varsy dsize eqg py ij.1 ij.2))
    rw [List.map_flatMap]
    refine flatMap_congr_left ?_
    intro a ha
    rw [List.map_map]
    refine List.map_congr_left ?_
    intro b hb
    have ha2 : a < n := List.mem_range.mp ha
    have hb2 : b < n := List.mem_range.mp hb
    show (a, b, cumPadX dF eqg px a b, cumPadY dF eqg py b a) =
      (a, b, padXspec varsx varsy dsize eqg px a b, padYspec varsx varsy dsize eqg py a b)
    rw [hpadX a b ha2 hb2, hpadY a b ha2 hb2]

theorem cumPad_gap (s : Nat → ℚ) (pitch : ℚ) (hp : 0 ≤ pitch) (hs : ∀ k, 0 ≤ s k) :
    ∀ (d j : Nat), cumPad s true pitch j + s j * (1/2) ≤
      cumPad s true pitch (j + 1 + d) - s (j + 1 + d) * (1/2) := by
  intro d
  induction d with
  | zero =>
    intro j
    show cumPad s true pitch j + s j * (1/2) ≤
      (cumPad s true pitch j + (s j + s (j + 1)) * (1/2) * (if true then 1 else 0) + pitch) -
        s (j + 1) * (1/2)
    simp only [if_true]
    linarith [hs j, hs (j + 1)]
  | succ d ih =>
    intro j
    have he : j + 1 + (d + 1) = (j + 1 + d) + 1 := by omega
    rw [he]
    have hstep : cumPad s true pitch ((j + 1 + d) + 1) =
        cumPad s true pitch (j + 1 + d) +
          (s (j + 1 + d) + s (j + 1 + d + 1)) * (1/2) * (if true then 1 else 0) + pitch := rfl
    rw [hstep]
    simp only [if_true]
    have := ih j
    linarith [hs (j + 1 + d), hs (j + 1 + d + 1)]

theorem padXspec_gap (varsx varsy : List ℚ) (dsize : ℚ → ℚ → ℚ × ℚ) (pitchx : ℚ)
    (hpx : 0 ≤ pitchx)
    (hs : ∀ a b, 0 ≤ (measuredSize varsx varsy dsize a b).1)
    (i j j2 : Nat) (hj : j < j2) :
    padXspec varsx varsy dsize true pitchx i j +
      (measuredSize varsx varsy dsize i j).1 * (1/2) ≤
    padXspec varsx varsy dsize true pitchx i j2 -
      (measuredSize varsx varsy dsize i j2).1 * (1/2) := by
  have h := cumPad_gap (fun k => (measuredDims varsx varsy dsize (i, k)).1) pitchx hpx
    (fun k => hs i k) (j2 - j - 1) j
  have he : j + 1 + (j2 - j - 1) = j2 := by omega
  rw [he] at h
  exact h

theorem padYspec_gap (varsx varsy : List ℚ) (dsize : ℚ → ℚ → ℚ × ℚ) (pitchy : ℚ)
    (hpy : 0 ≤ pitchy)
    (hs : ∀ a b, 0 ≤ (measuredSize varsx varsy dsize a b).2)
    (j i i2 : Nat) (hi : i < i2) :
    padYspec varsx varsy dsize true pitchy i j +
      (measuredSize varsx varsy dsize i j).2 * (1/2) ≤
    padYspec varsx varsy dsize true pitchy i2 j -
      (measuredSize varsx varsy dsize i2 j).2 * (1/2) := by
  have h := cumPad_gap (fun k => (measuredDims varsx varsy dsize (k, j)).2) pitchy hpy
    (fun k => hs k j) (i2 - i - 1) i
  have he : i + 1 + (i2 - i - 1) = i2 := by omega
  rw [he] at h
  exact h

/-- Claim C5, counterexample: a sweep over varsx = [1, 10],
varsy = [1, 10] with a device of size (x value, y value), equidistant
grid and zero pitch places cell (0,1) (a 1 x 10 box) at offset (1, 0)
and cell (1,0) (a 10 x 1 box) at offset (0, 1); the two bounding boxes
overlap around the point (1, 1): the equidistant spacing does not
prevent overlaps between cells that differ in both grid indices. -/
theorem RectangularSweep_cross_cells_overlap_counterexample :
    (RectangularSweep [1, 10] [1, 10] (fun a b => (a, b)) true 0 0).map
      SweepState.placed =
      .ok [(0, 0, 0, 0), (0, 1, 1, 0), (1, 0, 0, 1), (1, 1, 10, 10)] ∧
    (measuredSize [1, 10] [1, 10] (fun a b => (a, b)) 0 1 = (1, 10) ∧
      measuredSize [1, 10] [1, 10] (fun a b => (a, b)) 1 0 = (10, 1)) ∧
    cellsOverlap 1 0 1 10 0 1 10 1 := by
  refine ⟨?_, ⟨?_, ?_⟩, ?_, ?_⟩
  · with_unfolding_all rfl
  · with_unfolding_all rfl
  · with_unfolding_all rfl
  · with_unfolding_all decide
  · with_unfolding_all decide

/-- Claim C5, amended: in an equidistant sweep with equal axis lengths,
nonnegative pitches, and nonnegative measured device sizes, no two
placed cells sharing a grid row or a grid column have overlapping
bounding boxes (cell boxes taken as the measured size centered at the
recorded offset, as for devices that recenter themselves at the
origin); cells that differ in both indices can still overlap, as the
counterexample shows. -/
theorem RectangularSweep_same_row_col_no_overlap
    (varsx varsy : List ℚ) (dsize : ℚ → ℚ → ℚ × ℚ) (pitchx pitchy : ℚ) (n : Nat)
    (hx : varsx.length = n) (hy : varsy.length = n)
    (hpx : 0 ≤ pitchx) (hpy : 0 ≤ pitchy)
    (hs : ∀ i j, 0 ≤ (measuredSize varsx varsy dsize i j).1 ∧
      0 ≤ (measuredSize varsx varsy dsize i j).2)
    (pl : List (Nat × Nat × ℚ × ℚ))
    (hpl : (RectangularSweep varsx varsy dsize true pitchx pitchy).map
      SweepState.placed = .ok pl)
    (i j : Nat) (x y : ℚ) (i2 j2 : Nat) (x2 y2 : ℚ)
    (h1 : (i, j, x, y) ∈ pl) (h2 : (i2, j2, x2, y2) ∈ pl)
    (hne : (i = i2 ∧ j ≠ j2) ∨ (j = j2 ∧ i ≠ i2)) :
    ¬ cellsOverlap x y (measuredSize varsx varsy dsize i j).1
      (measuredSize varsx varsy dsize i j).2 x2 y2
      (measuredSize varsx varsy dsize i2 j2).1
      (measuredSize varsx varsy dsize i2 j2).2 := by
  obtain ⟨st, hrun, hpads, hplaced⟩ :=
    RectangularSweep_ok varsx varsy dsize true pitchx pitchy n hx hy
  rw [hrun] at hpl
  have hpl2 : Except.ok (ε := String) st.placed = .ok pl := hpl
  injection hpl2 with hpl3
  subst hpl3
  rw [hplaced] at h1 h2
  obtain ⟨a, ham, hae⟩ := List.mem_map.mp h1
  obtain ⟨b, hbm, hbe⟩ := List.mem_map.mp h2
  simp only [Prod.mk.injEq] at hae hbe
  obtain ⟨ea1, ea2, ea3, ea4⟩ := hae
  obtain ⟨eb1, eb2, eb3, eb4⟩ := hbe
  obtain ⟨ha1, ha2⟩ := (mem_sweepCells n a.1 a.2).mp ham
  obtain ⟨hb1, hb2⟩ := (mem_sweepCells n b.1 b.2).mp hbm
  subst ea1 ea2 ea3 ea4 eb1 eb2 eb3 eb4
  rintro ⟨hox, hoy⟩
  rcases hne with ⟨hii, hjj⟩ | ⟨hjj, hii⟩
  · rw [← hii] at hox
    rcases Nat.lt_or_ge a.2 b.2 with hlt | hge
    · have hg := padXspec_gap varsx varsy dsize pitchx hpx (fun u v => (hs u v).1)
        a.1 a.2 b.2 hlt
      have m1 := le_max_right
        (padXspec varsx varsy dsize true pitchx a.1 a.2 -
          (measuredSize varsx varsy dsize a.1 a.2).1 * (1/2))
        (padXspec varsx varsy dsize true pitchx a.1 b.2 -
          (measuredSize varsx varsy dsize a.1 b.2).1 * (1/2))
      have m2 := min_le_left
        (padXspec varsx varsy dsize true pitchx a.1 a.2 +
          (measuredSize varsx varsy dsize a.1 a.2).1 * (1/2))
        (padXspec varsx varsy dsize true pitchx a.1 b.2 +
          (measuredSize varsx varsy dsize a.1 b.2).1 * (1/2))
      linarith
    · have hlt : b.2 < a.2 := by omega
      have hg := padXspec_gap varsx varsy dsize pitchx hpx (fun u v => (hs u v).1)
        a.1 b.2 a.2 hlt
      have m1 := le_max_left
        (padXspec varsx varsy dsize true pitchx a.1 a.2 -
          (measuredSize varsx varsy dsize a.1 a.2).1 * (1/2))
        (padXspec varsx varsy dsize true pitchx a.1 b.2 -
          (measuredSize varsx varsy dsize a.1 b.2).1 * (1/2))
      have m2 := min_le_right
        (padXspec varsx varsy dsize true pitchx a.1 a.2 +
          (measuredSize varsx varsy dsize a.1 a.2).1 * (1/2))
        (padXspec varsx varsy dsize true pitchx a.1 b.2 +
          (measuredSize varsx varsy dsize a.1 b.2).1 * (1/2))
      linarith
  · rw [← hjj] at hoy
    rcases Nat.lt_or_ge a.1 b.1 with hlt | hge
    · have hg := padYspec_gap varsx varsy dsize pitchy hpy (fun u v => (hs u v).2)
        a.2 a.1 b.1 hlt
      have m1 := le_max_right
        (padYspec varsx varsy dsize true pitchy a.1 a.2 -
          (measuredSize varsx varsy dsize a.1 a.2).2 * (1/2))
        (padYspec varsx varsy dsize true pitchy b.1 a.2 -
          (measuredSize varsx varsy dsize b.1 a.2).2 * (1/2))
      have m2 := min_le_left
        (padYspec varsx varsy dsize true pitchy a.1 a.2 +
          (measuredSize varsx varsy dsize a.1 a.2).2 * (1/2))
        (padYspec varsx varsy dsize true pitchy b.1 a.2 +
          (measuredSize varsx varsy dsize b.1 a.2).2 * (1/2))
      linarith
    · have hlt : b.1 < a.1 := by omega
      have hg := padYspec_gap varsx varsy dsize pitchy hpy (fun u v => (hs u v).2)
        a.2 b.1 a.1 hlt
      have m1 := le_max_left
        (padYspec varsx varsy dsize true pitchy a.1 a.2 -
          (measuredSize varsx varsy dsize a.1 a.2).2 * (1/2))
        (padYspec varsx varsy dsize true pitchy b.1 a.2 -
          (measuredSize varsx varsy dsize b.1 a.2).2 * (1/2))
      have m2 := min_le_right
        (padYspec varsx varsy dsize true pitchy a.1 a.2 +
          (measuredSize varsx varsy dsize a.1 a.2).2 * (1/2))
        (padYspec varsx varsy dsize true pitchy b.1 a.2 +
          (measuredSize varsx varsy dsize b.1 a.2).2 * (1/2))
      linarith

theorem getD_nonneg (l : List ℚ) (h : ∀ q ∈ l, 0 ≤ q) (k : Nat) : 0 ≤ l.getD k 0 := by
  rw [List.getD_eq_getElem?_getD]
  cases hk : l[k]? with
  | none => simp
  | some q =>
    simp only [Option.getD_some]
    exact h q (List.getElem?_mem hk)

theorem RectangularSweep_same_row_col_no_overlap_witness :
    ¬ cellsOverlap 0 0 (measuredSize [1, 1] [1, 1] (fun a b => (a, b)) 0 0).1
      (measuredSize [1, 1] [1, 1] (fun a b => (a, b)) 0 0).2 1 0
      (measuredSize [1, 1] [1, 1] (fun a b => (a, b)) 0 1).1
      (measuredSize [1, 1] [1, 1] (fun a b => (a, b)) 0 1).2 :=
  RectangularSweep_same_row_col_no_overlap [1, 1] [1, 1] (fun a b => (a, b)) 0 0 2
    rfl rfl le_rfl le_rfl
    (fun u v => ⟨getD_nonneg [1, 1]
        (fun q hq => by
          have hq1 : q = 1 := by
            rcases List.mem_cons.mp hq with h | h
            · exact h
            · exact List.mem_singleton.mp h
          rw [hq1]
          norm_num) u,
      getD_nonneg [1, 1]
        (fun q hq => by
          have hq1 : q = 1 := by
            rcases List.mem_cons.mp hq with h | h
            · exact h
            · exact List.mem_singleton.mp h
          rw [hq1]
          norm_num) v⟩)
    [(0, 0, 0, 0), (0, 1, 1, 0), (1, 0, 0, 1), (1, 1, 1, 1)]
    (by with_unfolding_all rfl)
    0 0 0 0 0 1 1 0
    (by with_unfolding_all decide) (by with_unfolding_all decide)
    (Or.inl ⟨rfl, by decide⟩)
